import Mathlib

/-!
Verification of the personality-traits-ontology scoring stack.

The frontend display logic (band levels, API health check, question card
state) is embedded from the JavaScript sources.  The backend scoring
engine (FastAPI) is not part of the source tree, so its components are
modelled from the specification, as marked on each definition.
-/

namespace Frontend

/-- JavaScript Math.round on a rational number: the floor of x + 1/2. -/
def jsRound (q : ℚ) : ℤ := ⌊q + 1/2⌋

/-- Level computation of the Results components (src/unnamed/part_006 lines 81-86
and src/unnamed/part_007 lines 68-73, symbol traitScores):
percentage = Math.round(trait.percentile); level is High when percentage >= 70,
Moderate when percentage >= 40, Low otherwise. -/
def levelOf (percentile : ℚ) : String :=
  let percentage := jsRound percentile
  if 70 ≤ percentage then "High"
  else if 40 ≤ percentage then "Moderate"
  else "Low"

end Frontend

namespace Api

/-- Model of the JavaScript value checkApiHealth can return: a boolean, or the
falsy non-boolean undefined (the value of `q && q.length > 0` when q is absent). -/
inductive JsValue where
  | jsBool : Bool → JsValue
  | jsUndefined : JsValue
deriving DecidableEq

/-- Parsed JSON body of GET /api/health as checkApiHealth reads it: only the
optional ontology field is inspected. -/
structure HealthResponse where
  ontology : Option String
deriving DecidableEq

/-- Parsed JSON body of GET /api/questions as checkApiHealth reads it: only the
optional questions array is inspected, and of it only the length. -/
structure QuestionsResponse where
  questions : Option (List Unit)
deriving DecidableEq

/-- checkApiHealth from src/frontend/src/services/api.js, with each apiFetch
call replaced by its outcome (a thrown error, or the parsed response).
The source returns data.ontology === 'loaded' when /health succeeds; on a
throw it falls back to /questions and returns
questionsData.questions && questionsData.questions.length > 0, which is the
non-boolean undefined when the questions field is absent (an array, even empty,
is truthy in JavaScript, so the && proceeds to the boolean length test);
a second throw yields false. -/
def checkApiHealth (health : Except Unit HealthResponse)
    (questions : Except Unit QuestionsResponse) : JsValue :=
  match health with
  | .ok data => .jsBool (data.ontology == some "loaded")
  | .error _ =>
    match questions with
    | .ok qd =>
      match qd.questions with
      | some arr => .jsBool (decide (0 < arr.length))
      | none => .jsUndefined
    | .error _ => .jsBool false

end Api

namespace Card

/-- One entry of the questionTimestamps map built by handleSelect in
src/unnamed/part_008: the question id with the rounded start time, end time
and duration. -/
structure TsEntry where
  questionId : ℕ
  startTime : ℤ
  endTime : ℤ
  duration : ℤ
deriving DecidableEq

/-- The QuestionCard state relevant to the responses/questionTimestamps
invariant: currentIndex, the two maps (JavaScript objects, modelled as
association lists keyed by question id), and questionStartTimeRef. -/
structure CardState where
  currentIndex : ℕ
  responses : List (ℕ × ℕ)
  questionTimestamps : List (ℕ × TsEntry)
  questionStartTime : ℚ
deriving DecidableEq

/-- JavaScript object spread update `\x7b...prev, [k]: v\x7d`: overwrite the
value at an existing key in place, otherwise append the new key at the end. -/
def setKey {α : Type} : List (ℕ × α) → ℕ → α → List (ℕ × α)
  | [], k, v => [(k, v)]
  | p :: t, k, v => if p.1 = k then (k, v) :: t else p :: setKey t k v

/-- Association-list lookup: the model of reading obj[k]. -/
def getKey {α : Type} : List (ℕ × α) → ℕ → Option α
  | [], _ => none
  | p :: t, k => if p.1 = k then some p.2 else getKey t k

/-- JavaScript truthiness of responses[qid], as tested by handleNext. -/
def truthyAt (l : List (ℕ × ℕ)) (k : ℕ) : Bool :=
  match getKey l k with
  | some v => v != 0
  | none => false

/-- The user interactions of QuestionCard that can change its state.  Each
carries the performance.now() readings it observes: select reads the clock in
handleSelect (tNow) and, when the index auto-advances, again in the effect
that restarts the per-question timer (tEffect); the navigation handlers only
touch the clock through that same effect. -/
inductive CardOp where
  | select : ℕ → ℚ → ℚ → CardOp
  | moveBack : ℚ → CardOp
  | moveNext : ℚ → CardOp
  | jumpTo : ℕ → ℚ → CardOp
  | submitOp : CardOp
deriving DecidableEq

/-- One state transition of QuestionCard (src/unnamed/part_008), over the list
of question ids.  handleSelect (lines 49-77) writes responses[questionId] =
value and questionTimestamps[questionId] in the same handler, then
auto-advances when not on the last question; the effect on currentIndex resets
questionStartTime; handlePrevious, handleNext, the dot buttons and
handleSubmit never touch the two maps. -/
def step (questions : List ℕ) (s : CardState) : CardOp → CardState
  | .select v tNow tEff =>
    let qid := questions.getD s.currentIndex 0
    let adv := s.currentIndex < questions.length - 1
    { currentIndex := if adv then s.currentIndex + 1 else s.currentIndex
      responses := setKey s.responses qid v
      questionTimestamps := setKey s.questionTimestamps qid
        ⟨qid, Frontend.jsRound s.questionStartTime, Frontend.jsRound tNow,
          Frontend.jsRound (tNow - s.questionStartTime)⟩
      questionStartTime := if adv then tEff else s.questionStartTime }
  | .moveBack tEff =>
    if 0 < s.currentIndex then
      { s with currentIndex := s.currentIndex - 1, questionStartTime := tEff }
    else s
  | .moveNext tEff =>
    if s.currentIndex < questions.length - 1 ∧
        truthyAt s.responses (questions.getD s.currentIndex 0) = true then
      { s with currentIndex := s.currentIndex + 1, questionStartTime := tEff }
    else s
  | .jumpTo i tEff =>
    if i = s.currentIndex then s
    else { s with currentIndex := i, questionStartTime := tEff }
  | .submitOp => s

/-- Initial QuestionCard state: index 0, both maps empty, and the mount effect
seeding questionStartTimeRef with the mount time t0. -/
def initState (t0 : ℚ) : CardState := ⟨0, [], [], t0⟩

/-- Folding a trace of interactions over a state. -/
def runOps (questions : List ℕ) (s : CardState) (ops : List CardOp) : CardState :=
  ops.foldl (step questions) s

/-- The monotone-clock assumption on a trace: every handleSelect call reads a
performance.now() no earlier than the question start time it closes, and the
timer-reset effect that may follow it is no earlier still. -/
def TimesOk (questions : List ℕ) : CardState → List CardOp → Prop
  | _, [] => True
  | s, op :: rest =>
    (match op with
     | .select _ tNow tEff => s.questionStartTime ≤ tNow ∧ tNow ≤ tEff
     | _ => True) ∧ TimesOk questions (step questions s op) rest

/-- The invariant claimed for QuestionCard: the two maps always have the same
keys, and every recorded timestamp entry has startTime <= endTime. -/
def MapsInv (s : CardState) : Prop :=
  (∀ k, (getKey s.responses k).isSome = (getKey s.questionTimestamps k).isSome) ∧
  (∀ p ∈ s.questionTimestamps, p.2.startTime ≤ p.2.endTime)

theorem getKey_setKey_self {α : Type} (l : List (ℕ × α)) (k : ℕ) (v : α) :
    getKey (setKey l k v) k = some v := by
  induction l with
  | nil => simp [setKey, getKey]
  | cons p t ih =>
    by_cases h : p.1 = k <;> simp [setKey, getKey, h, ih]

theorem getKey_setKey_ne {α : Type} (l : List (ℕ × α)) {k j : ℕ} (v : α)
    (h : j ≠ k) : getKey (setKey l k v) j = getKey l j := by
  induction l with
  | nil => simp [setKey, getKey, Ne.symm h]
  | cons p t ih =>
    by_cases hp : p.1 = k
    · simp [setKey, getKey, hp, Ne.symm h, h]
    · by_cases hj : p.1 = j <;> simp [setKey, getKey, hp, hj, h, ih]

theorem mem_setKey {α : Type} {l : List (ℕ × α)} {k : ℕ} {v : α} {p : ℕ × α}
    (hp : p ∈ setKey l k v) : p = (k, v) ∨ p ∈ l := by
  induction l with
  | nil => simpa [setKey] using hp
  | cons q t ih =>
    by_cases h : q.1 = k
    · simp only [setKey, if_pos h, List.mem_cons] at hp
      rcases hp with h1 | h1
      · exact Or.inl h1
      · exact Or.inr (List.mem_cons_of_mem _ h1)
    · simp only [setKey, if_neg h, List.mem_cons] at hp
      rcases hp with h1 | h1
      · exact Or.inr (h1 ▸ List.mem_cons_self _ _)
      · rcases ih h1 with h2 | h2
        · exact Or.inl h2
        · exact Or.inr (List.mem_cons_of_mem _ h2)

theorem jsRound_mono {a b : ℚ} (h : a ≤ b) :
    Frontend.jsRound a ≤ Frontend.jsRound b :=
  Int.floor_le_floor (add_le_add_right h _)

theorem step_select_responses (questions : List ℕ) (s : CardState)
    (v : ℕ) (tNow tEff : ℚ) :
    (step questions s (.select v tNow tEff)).responses =
      setKey s.responses (questions.getD s.currentIndex 0) v := rfl

theorem step_select_timestamps (questions : List ℕ) (s : CardState)
    (v : ℕ) (tNow tEff : ℚ) :
    (step questions s (.select v tNow tEff)).questionTimestamps =
      setKey s.questionTimestamps (questions.getD s.currentIndex 0)
        ⟨questions.getD s.currentIndex 0, Frontend.jsRound s.questionStartTime,
          Frontend.jsRound tNow,
          Frontend.jsRound (tNow - s.questionStartTime)⟩ := rfl

theorem step_other_maps (questions : List ℕ) (s : CardState) (op : CardOp)
    (hop : ∀ v t1 t2, op ≠ .select v t1 t2) :
    (step questions s op).responses = s.responses ∧
    (step questions s op).questionTimestamps = s.questionTimestamps := by
  cases op with
  | select v t1 t2 => exact absurd rfl (hop v t1 t2)
  | moveBack tEff =>
    dsimp only [step]
    split_ifs <;> exact ⟨rfl, rfl⟩
  | moveNext tEff =>
    dsimp only [step]
    split_ifs <;> exact ⟨rfl, rfl⟩
  | jumpTo i tEff =>
    dsimp only [step]
    split_ifs <;> exact ⟨rfl, rfl⟩
  | submitOp => exact ⟨rfl, rfl⟩

theorem step_preserves_inv (questions : List ℕ) (s : CardState) (op : CardOp)
    (hInv : MapsInv s)
    (hok : ∀ v tNow tEff, op = .select v tNow tEff →
      s.questionStartTime ≤ tNow) :
    MapsInv (step questions s op) := by
  cases op with
  | select v tNow tEff =>
    have hle := hok v tNow tEff rfl
    constructor
    · intro k
      rw [step_select_responses, step_select_timestamps]
      by_cases hk : k = questions.getD s.currentIndex 0
      · subst hk
        rw [getKey_setKey_self, getKey_setKey_self]
        rfl
      · rw [getKey_setKey_ne _ _ hk, getKey_setKey_ne _ _ hk]
        exact hInv.1 k
    · intro p hp
      rw [step_select_timestamps] at hp
      rcases mem_setKey hp with h1 | h1
      · subst h1
        exact jsRound_mono hle
      · exact hInv.2 p h1
  | moveBack tEff =>
    dsimp only [step]
    split_ifs <;> exact hInv
  | moveNext tEff =>
    dsimp only [step]
    split_ifs <;> exact hInv
  | jumpTo i tEff =>
    dsimp only [step]
    split_ifs <;> exact hInv
  | submitOp => exact hInv

theorem runOps_preserves_inv (questions : List ℕ) (ops : List CardOp)
    (s : CardState) (hInv : MapsInv s) (h : TimesOk questions s ops) :
    MapsInv (runOps questions s ops) := by
  induction ops generalizing s with
  | nil => simpa [runOps] using hInv
  | cons op rest ih =>
    have h1 := h.1
    have h2 := h.2
    have hstep : MapsInv (step questions s op) := by
      refine step_preserves_inv questions s op hInv ?_
      intro v tNow tEff hop
      subst hop
      exact h1.1
    simpa [runOps] using ih (step questions s op) hstep h2

end Card

/-- C10: in QuestionCard the responses and questionTimestamps maps start empty
and always share the same key set; every handleSelect records, in one step
under the current question id, the chosen value in responses and a timestamp
entry with startTime <= endTime; and no interaction other than handleSelect
changes either map. -/
theorem c10_question_maps (questions : List ℕ) (t0 : ℚ) (ops : List Card.CardOp)
    (h : Card.TimesOk questions (Card.initState t0) ops) :
    ((Card.initState t0).responses = [] ∧
      (Card.initState t0).questionTimestamps = []) ∧
    Card.MapsInv (Card.runOps questions (Card.initState t0) ops) ∧
    (∀ (s : Card.CardState) v tNow tEff, s.questionStartTime ≤ tNow →
      Card.getKey (Card.step questions s (.select v tNow tEff)).responses
          (questions.getD s.currentIndex 0) = some v ∧
      ∃ e, Card.getKey
          (Card.step questions s (.select v tNow tEff)).questionTimestamps
          (questions.getD s.currentIndex 0) = some e ∧
        e.startTime ≤ e.endTime) ∧
    (∀ (s : Card.CardState) op, (∀ v t1 t2, op ≠ .select v t1 t2) →
      (Card.step questions s op).responses = s.responses ∧
      (Card.step questions s op).questionTimestamps = s.questionTimestamps) := by
  refine ⟨⟨rfl, rfl⟩, ?_, ?_, ?_⟩
  · refine Card.runOps_preserves_inv questions ops _ ?_ h
    exact ⟨fun k => rfl, by simp [Card.initState]⟩
  · intro s v tNow tEff hle
    refine ⟨?_, ?_⟩
    · rw [Card.step_select_responses, Card.getKey_setKey_self]
    · refine ⟨⟨questions.getD s.currentIndex 0,
        Frontend.jsRound s.questionStartTime, Frontend.jsRound tNow,
        Frontend.jsRound (tNow - s.questionStartTime)⟩, ?_,
        Card.jsRound_mono hle⟩
      rw [Card.step_select_timestamps, Card.getKey_setKey_self]
  · exact fun s op hop => Card.step_other_maps questions s op hop

/-- C10 witness: a concrete clock-consistent trace on a two-question card,
run through the main theorem. -/
theorem c10_question_maps_witness :
    Card.MapsInv (Card.runOps [10, 11] (Card.initState 0)
      [Card.CardOp.select 3 1 2, Card.CardOp.moveBack 3,
        Card.CardOp.select 4 5 6]) :=
  (c10_question_maps [10, 11] 0
    [Card.CardOp.select 3 1 2, Card.CardOp.moveBack 3,
      Card.CardOp.select 4 5 6]
    (by norm_num [Card.TimesOk, Card.step, Card.initState, Card.setKey,
      Card.truthyAt, Card.getKey])).2.1

/-- C1: the claim places the Moderate band exactly on 30 <= p < 70, but the
Results components round the percentile first and use thresholds 40 and 70:
at p = 69.9 the rounded percentage is 70, so the code assigns High where the
claim demands Moderate. -/
theorem c1_band_counterexample :
    (30 : ℚ) ≤ 699/10 ∧ (699/10 : ℚ) < 70 ∧
    Frontend.levelOf (699/10) ≠ "Moderate" ∧
    Frontend.levelOf (699/10) = "High" := by
  have hr : Frontend.jsRound (699/10) = 70 := by
    unfold Frontend.jsRound
    norm_num
  refine ⟨by norm_num, by norm_num, ?_, ?_⟩ <;>
    simp [Frontend.levelOf, hr]

/-- C1 (amended): the band assigned by the Results components is High exactly
when the rounded percentile is at least 70, Moderate exactly when it lies in
40..69, and Low exactly when it is below 40; in particular both p = 69.9 and
p = 70.0 yield High. -/
theorem c1_band_thresholds (p : ℚ) :
    (Frontend.levelOf p = "High" ↔ 70 ≤ Frontend.jsRound p) ∧
    (Frontend.levelOf p = "Moderate" ↔
      40 ≤ Frontend.jsRound p ∧ Frontend.jsRound p < 70) ∧
    (Frontend.levelOf p = "Low" ↔ Frontend.jsRound p < 40) ∧
    Frontend.levelOf (699/10) = "High" ∧ Frontend.levelOf 70 = "High" := by
  have h699 : Frontend.jsRound (699/10) = 70 := by
    unfold Frontend.jsRound; norm_num
  have h70 : Frontend.jsRound 70 = 70 := by
    unfold Frontend.jsRound; norm_num
  simp only [Frontend.levelOf]
  split_ifs with h1 h2 <;>
    simp_all <;> omega

/-- C9: the claim says checkApiHealth always returns a boolean, false in every
case not listed; but when /health throws and the /questions fallback succeeds
with a body lacking a questions array, the function returns the non-boolean
falsy value undefined. -/
theorem c9_health_counterexample :
    Api.checkApiHealth (.error ()) (.ok ⟨none⟩) = .jsUndefined ∧
    ∀ b, Api.JsValue.jsUndefined ≠ .jsBool b := by
  exact ⟨rfl, fun b => by simp⟩

/-- C9 (amended): checkApiHealth never throws; it returns the boolean
(ontology === 'loaded') when /health succeeds (so false when the ontology is
not reported loaded, without attempting the fallback); when /health throws it
returns the boolean (questions.length > 0) when the fallback succeeds with a
questions array, false when the fallback throws, and the non-boolean falsy
value undefined when the fallback succeeds without a questions array. -/
theorem c9_health_cases :
    (∀ d q, Api.checkApiHealth (.ok d) q = .jsBool (d.ontology == some "loaded")) ∧
    (∀ e1 e2, Api.checkApiHealth (.error e1) (.error e2) = .jsBool false) ∧
    (∀ e arr, Api.checkApiHealth (.error e) (.ok ⟨some arr⟩) =
      .jsBool (decide (0 < arr.length))) ∧
    (∀ e, Api.checkApiHealth (.error e) (.ok ⟨none⟩) = .jsUndefined) :=
  ⟨fun _ _ => rfl, fun _ _ => rfl, fun _ _ => rfl, fun _ => rfl⟩

namespace Engine

/-- Modelled from the spec: the backend scoring engine is not in the source
tree, so the Item of the knowledge base (section 3) is taken from the spec:
identifier, trait key, polarity (reverse-keyed or direct). -/
structure Item where
  id : String
  trait : String
  reverseKeyed : Bool
deriving DecidableEq

/-- Modelled from the spec: population norm per trait (section 3): trait key,
mean, standard deviation, sample size. -/
structure TraitNorm where
  trait : String
  mean : ℚ
  stdev : ℚ
  sampleSize : ℕ
deriving DecidableEq

/-- Modelled from the spec: one row of the correlation table (section 3):
outcome key, trait key, correlation coefficient, study count. -/
structure CorrelationRecord where
  outcome : String
  trait : String
  correlation : ℚ
  numStudies : ℕ
deriving DecidableEq

/-- Modelled from the spec: the fixed discrete answer scale (section 3),
e.g. 1..5 inclusive. -/
structure Scale where
  scaleMin : ℤ
  scaleMax : ℤ
deriving DecidableEq

/-- Modelled from the spec: the engine error taxonomy (section 7). -/
inductive EngineError where
  | invalidAnswer : String → ℤ → EngineError
  | incompleteSubmission : List String → EngineError
  | unknownItem : String → EngineError
  | degenerateNorm : String → EngineError
  | unknownOutcome : String → EngineError
  | missingNorm : String → EngineError
deriving DecidableEq

/-- Modelled from the spec: the Response Normalizer (section 4.1): a direct
item normalizes to the raw answer, a reverse-keyed item to
scale_max + scale_min - raw; a raw answer outside the scale fails with
InvalidAnswerError. -/
def normalizeResponse (sc : Scale) (it : Item) (raw : ℤ) :
    Except EngineError ℤ :=
  if raw < sc.scaleMin ∨ sc.scaleMax < raw then
    .error (.invalidAnswer it.id raw)
  else
    .ok (if it.reverseKeyed then sc.scaleMax + sc.scaleMin - raw else raw)

/-- A submission maps item identifiers to raw integer answers; modelled as an
association list. -/
def lookupAnswer (sub : List (String × ℤ)) (itemId : String) : Option ℤ :=
  (sub.find? (fun p => p.1 == itemId)).map (·.2)

/-- Modelled from the spec: the catalog items that lack a corresponding
response (section 4.2, completeness enforcement). -/
def missingItems (catalog : List Item) (sub : List (String × ℤ)) :
    List String :=
  (catalog.filter (fun it => (lookupAnswer sub it.id).isNone)).map (·.id)

/-- Modelled from the spec: the first response referencing an item identifier
absent from the catalog, if any (section 4.2, UnknownItemError). -/
def findUnknownItem (catalog : List Item) (sub : List (String × ℤ)) :
    Option String :=
  (sub.find? (fun p => catalog.all (fun it => !(it.id == p.1)))).map (·.1)

/-- Modelled from the spec: normalize every catalog item's answer in catalog
order, tagging each normalized value with the item's trait (section 4.2). -/
def normalizedCatalog (sc : Scale) :
    List Item → List (String × ℤ) → Except EngineError (List (String × ℤ))
  | [], _ => .ok []
  | it :: rest, sub =>
    match lookupAnswer sub it.id with
    | none => .error (.incompleteSubmission [it.id])
    | some raw =>
      match normalizeResponse sc it raw with
      | .error e => .error e
      | .ok v =>
        match normalizedCatalog sc rest sub with
        | .error e => .error e
        | .ok tl => .ok ((it.trait, v) :: tl)

/-- First-occurrence deduplication of a key list. -/
def dedupKeys (l : List String) : List String :=
  l.foldl (fun acc t => if t ∈ acc then acc else acc ++ [t]) []

/-- Sum of the normalized values carried by one trait. -/
def sumFor (pairs : List (String × ℤ)) (t : String) : ℤ :=
  ((pairs.filter (fun p => p.1 == t)).map (·.2)).sum

/-- Modelled from the spec: the Trait Aggregator (section 4.2): fails with
IncompleteSubmissionError naming every missing item identifier, then with
UnknownItemError on a response outside the catalog, and otherwise groups
normalized values by trait key and sums them. -/
def traitAggregate (sc : Scale) (catalog : List Item)
    (sub : List (String × ℤ)) : Except EngineError (List (String × ℤ)) :=
  if missingItems catalog sub = [] then
    match findUnknownItem catalog sub with
    | some uid => .error (.unknownItem uid)
    | none =>
      match normalizedCatalog sc catalog sub with
      | .error e => .error e
      | .ok pairs =>
        .ok ((dedupKeys (catalog.map (·.trait))).map
          (fun t => (t, sumFor pairs t)))
  else .error (.incompleteSubmission (missingItems catalog sub))

/-- Truncated Taylor series of the exponential (terms up to degree 10),
evaluated over the rationals; used on nonnegative arguments only. -/
def expTaylor (y : ℚ) : ℚ :=
  ∑ k ∈ Finset.range 11, y ^ k / (Nat.factorial k : ℚ)

/-- Exponential over the rationals: the Taylor polynomial for nonnegative
arguments, and its reciprocal for negative ones. -/
def expQ (x : ℚ) : ℚ :=
  if 0 ≤ x then expTaylor x else 1 / expTaylor (-x)

/-- Modelled from the spec: a numerically stable normal-CDF approximation
(section 4.3 leaves the choice open); here the logistic approximation
1 / (1 + exp(-1.702 z)) with the exponential computed by expQ. -/
def normalCdf (z : ℚ) : ℚ :=
  1 / (1 + expQ (-(1702 / 1000 * z)))

/-- Modelled from the spec: percentile clamping to [0.1, 99.9]
(section 4.3). -/
def clampPercentile (x : ℚ) : ℚ :=
  if x < 1 / 10 then 1 / 10 else if 999 / 10 < x then 999 / 10 else x

/-- Modelled from the spec: the configurable band thresholds
(section 4.3): below the first is Low, below the second Moderate,
otherwise High. -/
def bandThresholds : ℚ × ℚ := (30, 70)

/-- Modelled from the spec: the qualitative band of a 0..100 value
(section 4.3): percentile below 30 is Low, 30..70 inclusive-exclusive is
Moderate, at least 70 is High. -/
def bandOf (percentile : ℚ) : String :=
  if percentile < bandThresholds.1 then "Low"
  else if percentile < bandThresholds.2 then "Moderate"
  else "High"

/-- Modelled from the spec: the output of the Distribution Mapper
(section 4.3). -/
structure TraitScoreOut where
  trait : String
  rawScore : ℤ
  z : ℚ
  percentile : ℚ
  tScore : ℚ
  band : String
deriving DecidableEq

/-- Modelled from the spec: the Distribution Mapper (section 4.3): fails with
DegenerateNormError on stdev <= 0, else z = (raw - mean) / stdev, percentile
= clamped 100 times the normal CDF at z, T = 50 + 10 z unclamped, and the
band of the percentile. -/
def distributionMap (norm : TraitNorm) (raw : ℤ) :
    Except EngineError TraitScoreOut :=
  if norm.stdev ≤ 0 then .error (.degenerateNorm norm.trait)
  else
    let z := ((raw : ℚ) - norm.mean) / norm.stdev
    let pct := clampPercentile (100 * normalCdf z)
    .ok ⟨norm.trait, raw, z, pct, 50 + 10 * z, bandOf pct⟩

/-- Modelled from the spec: the PredictionResult (section 3): outcome key,
predicted 0..100 score, band, and the contributing-trait breakdown echoing
the source correlation records verbatim. -/
structure PredictionResult where
  outcome : String
  predictedScore : ℚ
  band : String
  contributingTraits : List CorrelationRecord
deriving DecidableEq

/-- Standardized score of a trait from the z map, as the Outcome Predictor
reads it. -/
def zLookup (zs : List (String × ℚ)) (t : String) : ℚ :=
  ((zs.find? (fun p => p.1 == t)).map (·.2)).getD 0

/-- Modelled from the spec: the study-count-weighted composite of one
outcome's contributing records (section 4.4):
sum of z_i times r_i times n_i over the sum of n_i. -/
def compositeOf (recs : List CorrelationRecord) (zs : List (String × ℚ)) : ℚ :=
  ((recs.map (fun r => zLookup zs r.trait * r.correlation *
    (r.numStudies : ℚ))).sum) /
  ((recs.map (fun r => (r.numStudies : ℚ))).sum)

/-- Modelled from the spec: the Outcome Predictor (section 4.4): fails with
UnknownOutcomeError when the correlation table has no record for the outcome
key, else maps the weighted composite through the normal-CDF transform onto
0..100 with the same clamp, attaches the band, and echoes the contributing
records verbatim. -/
def predictOutcome (table : List CorrelationRecord)
    (zs : List (String × ℚ)) (outcome : String) :
    Except EngineError PredictionResult :=
  match table.filter (fun r => r.outcome == outcome) with
  | [] => .error (.unknownOutcome outcome)
  | rec1 :: rest =>
    let recs := rec1 :: rest
    let c := compositeOf recs zs
    let sc := clampPercentile (100 * normalCdf c)
    .ok ⟨outcome, sc, bandOf sc, recs⟩

/-- Modelled from the spec: the full knowledge base handed to the engine
(section 6). -/
structure KnowledgeBase where
  scale : Scale
  catalog : List Item
  norms : List TraitNorm
  correlations : List CorrelationRecord
deriving DecidableEq

/-- The norm for one trait key, if any. -/
def normFor (norms : List TraitNorm) (t : String) : Option TraitNorm :=
  norms.find? (fun n => n.trait == t)

/-- Modelled from the spec: run the Distribution Mapper for every trait raw
score, failing fast on a trait with no norm. -/
def mapTraits (norms : List TraitNorm) :
    List (String × ℤ) → Except EngineError (List (String × TraitScoreOut))
  | [] => .ok []
  | p :: rest =>
    match normFor norms p.1 with
    | none => .error (.missingNorm p.1)
    | some n =>
      match distributionMap n p.2 with
      | .error e => .error e
      | .ok o =>
        match mapTraits norms rest with
        | .error e => .error e
        | .ok tl => .ok ((p.1, o) :: tl)

/-- Modelled from the spec: run the Outcome Predictor for every outcome key
present in the correlation table (section 4.5). -/
def mapOutcomes (table : List CorrelationRecord) (zs : List (String × ℚ)) :
    List String → Except EngineError (List (String × PredictionResult))
  | [] => .ok []
  | k :: rest =>
    match predictOutcome table zs k with
    | .error e => .error e
    | .ok pr =>
      match mapOutcomes table zs rest with
      | .error e => .error e
      | .ok tl => .ok ((k, pr) :: tl)

/-- Modelled from the spec: the engine's single output object (section 6). -/
structure EngineResult where
  traits : List (String × TraitScoreOut)
  outcomes : List (String × PredictionResult)
deriving DecidableEq

/-- Modelled from the spec: the Result Assembler (sections 4.5 and 6): the
one operation score(submission, knowledgeBase), fail-fast with no partial
result. -/
def score (kb : KnowledgeBase) (sub : List (String × ℤ)) :
    Except EngineError EngineResult :=
  match traitAggregate kb.scale kb.catalog sub with
  | .error e => .error e
  | .ok rawScores =>
    match mapTraits kb.norms rawScores with
    | .error e => .error e
    | .ok traitOuts =>
      match mapOutcomes kb.correlations (traitOuts.map (fun p => (p.1, p.2.z)))
          (dedupKeys (kb.correlations.map (·.outcome))) with
      | .error e => .error e
      | .ok outs => .ok ⟨traitOuts, outs⟩

end Engine

namespace Engine

theorem expTaylor_eval (y : ℚ) : expTaylor y =
    1 + y + y ^ 2 / 2 + y ^ 3 / 6 + y ^ 4 / 24 + y ^ 5 / 120 + y ^ 6 / 720 +
    y ^ 7 / 5040 + y ^ 8 / 40320 + y ^ 9 / 362880 + y ^ 10 / 3628800 := by
  unfold expTaylor
  simp [Finset.sum_range_succ, Nat.factorial]

theorem one_add_le_expTaylor {y : ℚ} (h : 0 ≤ y) : 1 + y ≤ expTaylor y := by
  rw [expTaylor_eval]
  have d2 : (0:ℚ) ≤ y ^ 2 / 2 := div_nonneg (pow_nonneg h _) (by norm_num)
  have d3 : (0:ℚ) ≤ y ^ 3 / 6 := div_nonneg (pow_nonneg h _) (by norm_num)
  have d4 : (0:ℚ) ≤ y ^ 4 / 24 := div_nonneg (pow_nonneg h _) (by norm_num)
  have d5 : (0:ℚ) ≤ y ^ 5 / 120 := div_nonneg (pow_nonneg h _) (by norm_num)
  have d6 : (0:ℚ) ≤ y ^ 6 / 720 := div_nonneg (pow_nonneg h _) (by norm_num)
  have d7 : (0:ℚ) ≤ y ^ 7 / 5040 := div_nonneg (pow_nonneg h _) (by norm_num)
  have d8 : (0:ℚ) ≤ y ^ 8 / 40320 := div_nonneg (pow_nonneg h _) (by norm_num)
  have d9 : (0:ℚ) ≤ y ^ 9 / 362880 := div_nonneg (pow_nonneg h _) (by norm_num)
  have d10 : (0:ℚ) ≤ y ^ 10 / 3628800 := div_nonneg (pow_nonneg h _) (by norm_num)
  linarith

theorem expTaylor_pos {y : ℚ} (h : 0 ≤ y) : 0 < expTaylor y :=
  lt_of_lt_of_le (by linarith) (one_add_le_expTaylor h)

theorem one_le_expTaylor {y : ℚ} (h : 0 ≤ y) : 1 ≤ expTaylor y :=
  le_trans (by linarith) (one_add_le_expTaylor h)

theorem expTaylor_mono {a b : ℚ} (ha : 0 ≤ a) (hab : a ≤ b) :
    expTaylor a ≤ expTaylor b := by
  rw [expTaylor_eval, expTaylor_eval]
  gcongr

theorem expQ_pos (x : ℚ) : 0 < expQ x := by
  unfold expQ
  split_ifs with h
  · exact expTaylor_pos h
  · exact div_pos one_pos (expTaylor_pos (by linarith))

theorem expQ_mono {x y : ℚ} (h : x ≤ y) : expQ x ≤ expQ y := by
  unfold expQ
  split_ifs with hx hy hy2
  · exact expTaylor_mono hx h
  · linarith
  · have h1 : 1 ≤ expTaylor (-x) := one_le_expTaylor (by linarith)
    have h2 : 1 ≤ expTaylor y := one_le_expTaylor hy2
    have h3 : 1 / expTaylor (-x) ≤ 1 := by
      rw [div_le_one (by linarith)]
      exact h1
    linarith
  · have hyneg : (0:ℚ) ≤ -y := by linarith
    exact one_div_le_one_div_of_le (expTaylor_pos hyneg)
      (expTaylor_mono hyneg (by linarith))

theorem normalCdf_mono {a b : ℚ} (h : a ≤ b) : normalCdf a ≤ normalCdf b := by
  unfold normalCdf
  have h1 : expQ (-(1702 / 1000 * b)) ≤ expQ (-(1702 / 1000 * a)) :=
    expQ_mono (by linarith)
  have h2 : 0 < 1 + expQ (-(1702 / 1000 * b)) := by
    have := expQ_pos (-(1702 / 1000 * b))
    linarith
  exact one_div_le_one_div_of_le h2 (by linarith)

theorem clampPercentile_bounds (x : ℚ) :
    1 / 10 ≤ clampPercentile x ∧ clampPercentile x ≤ 999 / 10 := by
  unfold clampPercentile
  split_ifs <;> constructor <;> linarith

theorem clampPercentile_mono {x y : ℚ} (h : x ≤ y) :
    clampPercentile x ≤ clampPercentile y := by
  unfold clampPercentile
  split_ifs <;> linarith

theorem distributionMap_eq (norm : TraitNorm) (raw : ℤ) (h : 0 < norm.stdev) :
    distributionMap norm raw = .ok
      ⟨norm.trait, raw, ((raw : ℚ) - norm.mean) / norm.stdev,
        clampPercentile (100 * normalCdf (((raw : ℚ) - norm.mean) / norm.stdev)),
        50 + 10 * (((raw : ℚ) - norm.mean) / norm.stdev),
        bandOf (clampPercentile
          (100 * normalCdf (((raw : ℚ) - norm.mean) / norm.stdev)))⟩ := by
  unfold distributionMap
  rw [if_neg (not_le.mpr h)]

theorem expTaylor_strictMono {a b : ℚ} (ha : 0 ≤ a) (hab : a < b) :
    expTaylor a < expTaylor b := by
  rw [expTaylor_eval, expTaylor_eval]
  have h2 := pow_le_pow_left ha hab.le 2
  have h3 := pow_le_pow_left ha hab.le 3
  have h4 := pow_le_pow_left ha hab.le 4
  have h5 := pow_le_pow_left ha hab.le 5
  have h6 := pow_le_pow_left ha hab.le 6
  have h7 := pow_le_pow_left ha hab.le 7
  have h8 := pow_le_pow_left ha hab.le 8
  have h9 := pow_le_pow_left ha hab.le 9
  have h10 := pow_le_pow_left ha hab.le 10
  linarith

theorem expQ_strictMono {x y : ℚ} (h : x < y) : expQ x < expQ y := by
  unfold expQ
  split_ifs with hx hy hy2
  · exact expTaylor_strictMono hx h
  · linarith
  · have h1 : 1 + -x ≤ expTaylor (-x) := one_add_le_expTaylor (by linarith)
    have h2 : 1 ≤ expTaylor y := one_le_expTaylor hy2
    have h3 : 1 / expTaylor (-x) < 1 := by
      rw [div_lt_one (by linarith)]
      linarith
    linarith
  · have hyneg : (0:ℚ) ≤ -y := by linarith
    exact one_div_lt_one_div_of_lt (expTaylor_pos hyneg)
      (expTaylor_strictMono hyneg (by linarith))

theorem normalCdf_strictMono {a b : ℚ} (h : a < b) :
    normalCdf a < normalCdf b := by
  unfold normalCdf
  have h1 : expQ (-(1702 / 1000 * b)) < expQ (-(1702 / 1000 * a)) :=
    expQ_strictMono (by linarith)
  have h2 : 0 < 1 + expQ (-(1702 / 1000 * b)) := by
    have := expQ_pos (-(1702 / 1000 * b))
    linarith
  exact one_div_lt_one_div_of_lt h2 (by linarith)

theorem clampPercentile_eq_cases {x y : ℚ} (hxy : x < y)
    (heq : clampPercentile x = clampPercentile y) :
    (clampPercentile x = 1 / 10 ∧ clampPercentile y = 1 / 10) ∨
    (clampPercentile x = 999 / 10 ∧ clampPercentile y = 999 / 10) := by
  unfold clampPercentile at heq ⊢
  split_ifs at heq ⊢ <;>
    first
      | (left; constructor <;> linarith)
      | (right; constructor <;> linarith)
      | (exfalso; linarith)

theorem clampPercentile_lt_iff {x y : ℚ} (hxy : x < y) :
    clampPercentile x < clampPercentile y ↔
      ¬((clampPercentile x = 1 / 10 ∧ clampPercentile y = 1 / 10) ∨
        (clampPercentile x = 999 / 10 ∧ clampPercentile y = 999 / 10)) := by
  constructor
  · intro hlt hboth
    rcases hboth with ⟨h1, h2⟩ | ⟨h1, h2⟩ <;> rw [h1, h2] at hlt <;>
      exact lt_irrefl _ hlt
  · intro hne
    rcases lt_or_eq_of_le (clampPercentile_mono hxy.le) with hlt | heq
    · exact hlt
    · exact absurd (clampPercentile_eq_cases hxy heq) hne

end Engine

/-- C4: a reverse-keyed item on scale [min, max] normalizes a raw answer to
max + min - raw (on 1..5, raw 1 gives 5 and raw 5 gives 1), and a direct item
normalizes to the raw answer itself, whenever the raw answer lies on the
scale. -/
theorem c4_reverse_scoring (sc : Engine.Scale) (it : Engine.Item) (raw : ℤ)
    (h1 : sc.scaleMin ≤ raw) (h2 : raw ≤ sc.scaleMax) :
    (it.reverseKeyed = true →
      Engine.normalizeResponse sc it raw =
        .ok (sc.scaleMax + sc.scaleMin - raw)) ∧
    (it.reverseKeyed = false →
      Engine.normalizeResponse sc it raw = .ok raw) := by
  unfold Engine.normalizeResponse
  rw [if_neg (not_or.mpr ⟨not_lt.mpr h1, not_lt.mpr h2⟩)]
  constructor <;> intro hr <;> rw [hr] <;> simp

/-- C4 witness: on the 1..5 scale, a reverse-keyed item maps raw 1 to 5 and
raw 5 to 1, and a direct item maps raw 3 to 3. -/
theorem c4_reverse_scoring_witness :
    Engine.normalizeResponse ⟨1, 5⟩ ⟨"q1", "openness", true⟩ 1 = .ok 5 ∧
    Engine.normalizeResponse ⟨1, 5⟩ ⟨"q2", "openness", true⟩ 5 = .ok 1 ∧
    Engine.normalizeResponse ⟨1, 5⟩ ⟨"q3", "openness", false⟩ 3 = .ok 3 := by
  refine ⟨?_, ?_, ?_⟩
  · have h := (c4_reverse_scoring ⟨1, 5⟩ ⟨"q1", "openness", true⟩ 1
      (by norm_num) (by norm_num)).1 rfl
    simpa using h
  · have h := (c4_reverse_scoring ⟨1, 5⟩ ⟨"q2", "openness", true⟩ 5
      (by norm_num) (by norm_num)).1 rfl
    simpa using h
  · have h := (c4_reverse_scoring ⟨1, 5⟩ ⟨"q3", "openness", false⟩ 3
      (by norm_num) (by norm_num)).2 rfl
    simpa using h

/-- C5: for every trait norm with positive standard deviation and every raw
score, the Distribution Mapper succeeds and its percentile lies in the closed
interval [0.1, 99.9]. -/
theorem c5_percentile_bounds (norm : Engine.TraitNorm) (raw : ℤ)
    (h : 0 < norm.stdev) :
    ∃ out, Engine.distributionMap norm raw = .ok out ∧
      1 / 10 ≤ out.percentile ∧ out.percentile ≤ 999 / 10 := by
  refine ⟨_, Engine.distributionMap_eq norm raw h, ?_, ?_⟩
  · exact (Engine.clampPercentile_bounds _).1
  · exact (Engine.clampPercentile_bounds _).2

/-- C5 witness: the spec's own concrete norm (mean 35, stdev 6) at raw score
41. -/
theorem c5_percentile_bounds_witness :
    ∃ out, Engine.distributionMap ⟨"conscientiousness", 35, 6, 100⟩ 41 =
        .ok out ∧ 1 / 10 ≤ out.percentile ∧ out.percentile ≤ 999 / 10 :=
  c5_percentile_bounds ⟨"conscientiousness", 35, 6, 100⟩ 41 (by norm_num)

/-- C6: the claim asks for strictly greater percentile whenever the raw score
grows, but the spec also clamps the percentile to [0.1, 99.9]; at the extreme
tail two different raw scores both clamp to 0.1, so the percentile does not
strictly increase: with norm mean 0 and stdev 1, raw -7 and raw -6 get equal
percentiles although their standardized scores differ. -/
theorem c6_monotonicity_counterexample :
    ∃ o1 o2, Engine.distributionMap ⟨"neuroticism", 0, 1, 100⟩ (-7) = .ok o1 ∧
      Engine.distributionMap ⟨"neuroticism", 0, 1, 100⟩ (-6) = .ok o2 ∧
      o1.z < o2.z ∧ o1.percentile = 1 / 10 ∧ o2.percentile = 1 / 10 ∧
      ¬ o1.percentile < o2.percentile := by
  refine ⟨_, _, Engine.distributionMap_eq _ _ (by norm_num),
    Engine.distributionMap_eq _ _ (by norm_num), by norm_num, ?_, ?_, ?_⟩
  · norm_num [Engine.clampPercentile, Engine.normalCdf, Engine.expQ,
      Engine.expTaylor_eval]
  · norm_num [Engine.clampPercentile, Engine.normalCdf, Engine.expQ,
      Engine.expTaylor_eval]
  · norm_num [Engine.clampPercentile, Engine.normalCdf, Engine.expQ,
      Engine.expTaylor_eval]

/-- C6 (amended): for a fixed trait norm with positive standard deviation,
a strictly larger raw score gives a strictly larger standardized score and
T-score, and a percentile that is non-decreasing and strictly larger exactly
when the two percentiles are not both clamped at the same bound of
[0.1, 99.9]. -/
theorem c6_monotonicity (norm : Engine.TraitNorm) (r1 r2 : ℤ)
    (h0 : 0 < norm.stdev) (h : r1 < r2) :
    ∃ o1 o2, Engine.distributionMap norm r1 = .ok o1 ∧
      Engine.distributionMap norm r2 = .ok o2 ∧
      o1.z < o2.z ∧ o1.tScore < o2.tScore ∧ o1.percentile ≤ o2.percentile ∧
      (o1.percentile < o2.percentile ↔
        ¬((o1.percentile = 1 / 10 ∧ o2.percentile = 1 / 10) ∨
          (o1.percentile = 999 / 10 ∧ o2.percentile = 999 / 10))) := by
  have hz : ((r1 : ℚ) - norm.mean) / norm.stdev <
      ((r2 : ℚ) - norm.mean) / norm.stdev := by
    rw [div_lt_div_iff h0 h0]
    refine mul_lt_mul_of_pos_right ?_ h0
    have : (r1 : ℚ) < (r2 : ℚ) := by exact_mod_cast h
    linarith
  have hx : 100 * Engine.normalCdf (((r1 : ℚ) - norm.mean) / norm.stdev) <
      100 * Engine.normalCdf (((r2 : ℚ) - norm.mean) / norm.stdev) := by
    have := Engine.normalCdf_strictMono hz
    linarith
  refine ⟨_, _, Engine.distributionMap_eq norm r1 h0,
    Engine.distributionMap_eq norm r2 h0, ?_, ?_, ?_, ?_⟩
  · exact hz
  · show 50 + 10 * (((r1 : ℚ) - norm.mean) / norm.stdev) <
      50 + 10 * (((r2 : ℚ) - norm.mean) / norm.stdev)
    linarith
  · exact Engine.clampPercentile_mono hx.le
  · exact Engine.clampPercentile_lt_iff hx

/-- C6 amended witness: the spec's concrete norm (mean 35, stdev 6) at raw
scores 35 and 41, run through the amended theorem in full. -/
theorem c6_monotonicity_witness :
    ∃ o1 o2, Engine.distributionMap ⟨"conscientiousness", 35, 6, 100⟩ 35 =
        .ok o1 ∧
      Engine.distributionMap ⟨"conscientiousness", 35, 6, 100⟩ 41 = .ok o2 ∧
      o1.z < o2.z ∧ o1.tScore < o2.tScore ∧ o1.percentile ≤ o2.percentile ∧
      (o1.percentile < o2.percentile ↔
        ¬((o1.percentile = 1 / 10 ∧ o2.percentile = 1 / 10) ∨
          (o1.percentile = 999 / 10 ∧ o2.percentile = 999 / 10))) :=
  c6_monotonicity ⟨"conscientiousness", 35, 6, 100⟩ 35 41 (by norm_num)
    (by norm_num)

namespace Engine

theorem predictOutcome_eq (table : List CorrelationRecord)
    (zs : List (String × ℚ)) (key : String)
    (rec1 : CorrelationRecord) (rest : List CorrelationRecord)
    (heq : table.filter (fun r => r.outcome == key) = rec1 :: rest) :
    predictOutcome table zs key = .ok
      ⟨key, clampPercentile (100 * normalCdf (compositeOf (rec1 :: rest) zs)),
        bandOf (clampPercentile
          (100 * normalCdf (compositeOf (rec1 :: rest) zs))),
        rec1 :: rest⟩ := by
  unfold predictOutcome
  rw [heq]

end Engine

/-- C2: a submission lacking a response for at least one catalog item makes
the scoring operation fail with IncompleteSubmissionError, the error carries
every missing item identifier, and no result object is produced. -/
theorem c2_incomplete_submission (kb : Engine.KnowledgeBase)
    (sub : List (String × ℤ))
    (h : ∃ it ∈ kb.catalog, Engine.lookupAnswer sub it.id = none) :
    Engine.score kb sub =
      .error (.incompleteSubmission (Engine.missingItems kb.catalog sub)) ∧
    Engine.missingItems kb.catalog sub ≠ [] ∧
    (∀ it ∈ kb.catalog, Engine.lookupAnswer sub it.id = none →
      it.id ∈ Engine.missingItems kb.catalog sub) ∧
    ∀ res, Engine.score kb sub ≠ .ok res := by
  obtain ⟨it0, hit0, hnone⟩ := h
  have hmem : ∀ it ∈ kb.catalog, Engine.lookupAnswer sub it.id = none →
      it.id ∈ Engine.missingItems kb.catalog sub := by
    intro it hit hn
    unfold Engine.missingItems
    exact List.mem_map_of_mem _ (List.mem_filter.mpr ⟨hit, by simp [hn]⟩)
  have hne : Engine.missingItems kb.catalog sub ≠ [] :=
    List.ne_nil_of_mem (hmem it0 hit0 hnone)
  have hagg : Engine.traitAggregate kb.scale kb.catalog sub =
      .error (.incompleteSubmission (Engine.missingItems kb.catalog sub)) := by
    unfold Engine.traitAggregate
    rw [if_neg hne]
  have hscore : Engine.score kb sub =
      .error (.incompleteSubmission (Engine.missingItems kb.catalog sub)) := by
    unfold Engine.score
    rw [hagg]
  refine ⟨hscore, hne, hmem, fun res hres => ?_⟩
  rw [hscore] at hres
  exact Except.noConfusion hres

/-- C2 witness: a two-item catalog scored against a submission answering only
the first item fails naming the second. -/
theorem c2_incomplete_submission_witness :
    Engine.score
      ⟨⟨1, 5⟩, [⟨"q1", "openness", false⟩, ⟨"q2", "openness", true⟩],
        [⟨"openness", 35, 6, 100⟩], []⟩
      [("q1", 3)] =
    .error (.incompleteSubmission ["q2"]) := by
  have h := (c2_incomplete_submission
    ⟨⟨1, 5⟩, [⟨"q1", "openness", false⟩, ⟨"q2", "openness", true⟩],
      [⟨"openness", 35, 6, 100⟩], []⟩
    [("q1", 3)]
    ⟨⟨"q2", "openness", true⟩, by simp, by simp [Engine.lookupAnswer]⟩).1
  simpa [Engine.missingItems, Engine.lookupAnswer] using h

/-- C3: a successful PredictionResult echoes, as its contributingTraits, the
correlation records of its outcome verbatim: the breakdown is exactly the
filter of the table on the outcome key, so it contains exactly the traits
present for that outcome with correlation and study count equal to the
source records. -/
theorem c3_outcome_provenance (table : List Engine.CorrelationRecord)
    (zs : List (String × ℚ)) (key : String) (pr : Engine.PredictionResult)
    (h : Engine.predictOutcome table zs key = .ok pr) :
    pr.contributingTraits = table.filter (fun r => r.outcome == key) ∧
    ∀ r, r ∈ pr.contributingTraits ↔ r ∈ table ∧ r.outcome = key := by
  have hct : pr.contributingTraits =
      table.filter (fun r => r.outcome == key) := by
    unfold Engine.predictOutcome at h
    split at h
    · exact absurd h (by simp)
    · next rec1 rest heq =>
      simp only [Except.ok.injEq] at h
      rw [← h, heq]
  refine ⟨hct, fun r => ?_⟩
  rw [hct, List.mem_filter]
  simp

/-- C3 witness: a two-outcome table queried for one outcome returns exactly
that outcome's record as the breakdown. -/
theorem c3_outcome_provenance_witness :
    ∃ pr, Engine.predictOutcome
        [⟨"gpa", "conscientiousness", 1/4, 30⟩,
          ⟨"income", "extraversion", 1/5, 10⟩]
        [("conscientiousness", 1), ("extraversion", 0)] "gpa" = .ok pr ∧
      pr.contributingTraits = [⟨"gpa", "conscientiousness", 1/4, 30⟩] := by
  have heq : ([⟨"gpa", "conscientiousness", 1/4, 30⟩,
      ⟨"income", "extraversion", 1/5, 10⟩] :
        List Engine.CorrelationRecord).filter
      (fun r => r.outcome == "gpa") =
      [⟨"gpa", "conscientiousness", 1/4, 30⟩] := by
    simp
  have hok := Engine.predictOutcome_eq _
    [("conscientiousness", 1), ("extraversion", 0)] "gpa" _ _ heq
  have h := (c3_outcome_provenance _ _ _ _ hok).1
  exact ⟨_, hok, by rw [h, heq]⟩

/-- C7 helper: the concrete contributing records of the spec's scenario. -/
def c7recs : List Engine.CorrelationRecord :=
  [⟨"job_performance", "traitA", 3/10, 20⟩,
    ⟨"job_performance", "traitB", 1/10, 5⟩]

/-- C7 helper: the concrete standardized scores of the spec's scenario. -/
def c7zs : List (String × ℚ) := [("traitA", 1), ("traitB", -1)]

/-- C7: every successful prediction scores the study-count-weighted composite
sum of z times r times n over sum of n through the normal-CDF transform; in
the spec's scenario (traitA r 0.3 n 20 z 1, traitB r 0.1 n 5 z -1) the
composite is 0.22 and the mapped score lies in the upper 50s. -/
theorem c7_weighted_composite (table : List Engine.CorrelationRecord)
    (zs : List (String × ℚ)) (key : String) (pr : Engine.PredictionResult)
    (h : Engine.predictOutcome table zs key = .ok pr) :
    pr.predictedScore = Engine.clampPercentile (100 * Engine.normalCdf
      (Engine.compositeOf (table.filter (fun r => r.outcome == key)) zs)) ∧
    Engine.compositeOf (table.filter (fun r => r.outcome == key)) zs =
      ((table.filter (fun r => r.outcome == key)).map
        (fun r => Engine.zLookup zs r.trait * r.correlation *
          (r.numStudies : ℚ))).sum /
      ((table.filter (fun r => r.outcome == key)).map
        (fun r => (r.numStudies : ℚ))).sum ∧
    Engine.compositeOf c7recs c7zs = 11 / 50 ∧
    55 < Engine.clampPercentile (100 * Engine.normalCdf (11 / 50)) ∧
    Engine.clampPercentile (100 * Engine.normalCdf (11 / 50)) < 60 := by
  refine ⟨?_, rfl, ?_, ?_, ?_⟩
  · unfold Engine.predictOutcome at h
    split at h
    · exact absurd h (by simp)
    · next rec1 rest heq =>
      simp only [Except.ok.injEq] at h
      rw [← h, heq]
  · simp [Engine.compositeOf, c7recs, c7zs, Engine.zLookup]
    norm_num
  · norm_num [Engine.clampPercentile, Engine.normalCdf, Engine.expQ,
      Engine.expTaylor_eval]
  · norm_num [Engine.clampPercentile, Engine.normalCdf, Engine.expQ,
      Engine.expTaylor_eval]

/-- C7 witness: predicting the scenario outcome over its own table yields a
score strictly between 55 and 60. -/
theorem c7_weighted_composite_witness :
    ∃ pr, Engine.predictOutcome c7recs c7zs "job_performance" = .ok pr ∧
      55 < pr.predictedScore ∧ pr.predictedScore < 60 := by
  have heq : c7recs.filter (fun r => r.outcome == "job_performance") =
      c7recs := rfl
  have hok := Engine.predictOutcome_eq c7recs c7zs "job_performance" _ _ heq
  have h := c7_weighted_composite c7recs c7zs "job_performance" _ hok
  refine ⟨_, hok, ?_, ?_⟩
  · rw [h.1, heq, h.2.2.1]
    exact h.2.2.2.1
  · rw [h.1, heq, h.2.2.1]
    exact h.2.2.2.2

/-- C8: an outcome key with no record in the correlation table makes the
Outcome Predictor fail with UnknownOutcomeError and never yields a
PredictionResult. -/
theorem c8_unknown_outcome (table : List Engine.CorrelationRecord)
    (zs : List (String × ℚ)) (key : String)
    (h : ∀ r ∈ table, r.outcome ≠ key) :
    Engine.predictOutcome table zs key = .error (.unknownOutcome key) ∧
    ∀ pr, Engine.predictOutcome table zs key ≠ .ok pr := by
  have hfil : table.filter (fun r => r.outcome == key) = [] := by
    rw [List.filter_eq_nil_iff]
    intro r hr
    simpa using h r hr
  have herr : Engine.predictOutcome table zs key =
      .error (.unknownOutcome key) := by
    unfold Engine.predictOutcome
    rw [hfil]
  refine ⟨herr, fun pr hpr => ?_⟩
  rw [herr] at hpr
  exact Except.noConfusion hpr

/-- C8 witness: a table holding only a gpa outcome rejects a creativity
prediction request. -/
theorem c8_unknown_outcome_witness :
    Engine.predictOutcome [⟨"gpa", "conscientiousness", 1/4, 30⟩]
      [("conscientiousness", 1)] "creativity" =
    .error (.unknownOutcome "creativity") :=
  (c8_unknown_outcome [⟨"gpa", "conscientiousness", 1/4, 30⟩]
    [("conscientiousness", 1)] "creativity" (by simp)).1
